import Mathlib

/-!
# doctors-reviews: a shallow embedding of `main.go`

The service fetches one doctor page, extracts the patient reviews and answers with JSON.
This file embeds the extraction pipeline of `main.go` (`PostHandler`, `runParser`,
`findReviews`, `parseProdoctorov`, `parseSberzdorovie`, `trimAllSpace`) and proves
properties of it.

Conventions of the embedding.

* The package-level variable `reviews` is threaded explicitly: every function that reads
  or writes it takes the current value and its result carries the new one.
* A Go slice of reviews is `Option (List Review)`: `none` is the `nil` slice, `some l` a
  non-nil slice with the elements `l`.
* A call ends in one of three ways (`Result`): it returns, it panics (a failed type
  assertion), or it ends the process through `log.Fatal`.
* The libraries are modelled by their documented behaviour: `strings.Fields`,
  `strings.Join`, `strings.TrimSpace`, `unicode.IsSpace`; the node tree of
  `golang.org/x/net/html` with the `Find`, `Each`, `Text` and `Attr` operations of goquery
  on the selectors the program uses; the verb `%.0f` of `fmt` on a `float64`.
* What the outside world supplies is a parameter (`World`): the answer of the HTTP client
  to a GET, the value `json.Unmarshal` decodes from a text, and the diagnostic `fmt`
  prints when the operand of `%.0f` is not a float.
* The handlers of `net/http` run concurrently and share the package variable. A call waits
  in `client.R().Get`; what the handlers of other requests have made of the package
  variable by the time the GET returns is the field `meanwhile` of `World` (the identity
  when no other request is under way). The code after the GET reads the variable again, so
  it sees that value.
* A Go string is a Lean `String`; a byte that is not valid UTF-8 is never white space for
  Go, and plays the part of any non-space character here.
-/

namespace DoctorsReviews

/-! ## Strings -/

/-- Go `unicode.IsSpace`: the white space characters of Unicode, that is
`'\t' '\n' '\v' '\f' '\r' ' '`, U+0085 and U+00A0 in Latin-1, and beyond it U+1680,
U+2000..U+200A, U+2028, U+2029, U+202F, U+205F and U+3000. -/
def isSpace (c : Char) : Bool :=
  let n := c.toNat
  n == 0x20 || (0x09 ≤ n && n ≤ 0x0D) || n == 0x85 || n == 0xA0 || n == 0x1680 ||
    (0x2000 ≤ n && n ≤ 0x200A) || n == 0x2028 || n == 0x2029 || n == 0x202F ||
    n == 0x205F || n == 0x3000

/-- The scanning loop of `strings.Fields` (`FieldsFunc` with `unicode.IsSpace`): `cur` is the
field that is open at the current position (empty when none is open); a white space character
closes the open field, any other character extends it, and the end of the input closes it. -/
def fieldsFrom (cur : List Char) : List Char → List (List Char)
  | [] => if cur.isEmpty then [] else [cur]
  | c :: cs =>
    if isSpace c then
      if cur.isEmpty then fieldsFrom [] cs else cur :: fieldsFrom [] cs
    else fieldsFrom (cur ++ [c]) cs

/-- Go `strings.Fields`. -/
def Fields (s : String) : List String :=
  (fieldsFrom [] s.data).map String.mk

/-- Go `strings.Join`: no element gives `""`, one element gives that element, otherwise the
first element followed by `sep` and the next element, for each further element. -/
def Join : List String → String → String
  | [], _ => ""
  | [e], _ => e
  | e :: es, sep => es.foldl (fun b x => b ++ sep ++ x) e

/-- `trimAllSpace` of `main.go`: `strings.Join(strings.Fields(s), " ")`. -/
def trimAllSpace (s : String) : String :=
  Join (Fields s) " "

/-- Go `strings.TrimSpace`: leading and trailing white space removed. -/
def TrimSpace (s : String) : String :=
  String.mk ((s.data.dropWhile isSpace).reverse.dropWhile isSpace).reverse

/-- Characters of `strings.Join(ws, " ")`, used to reason on `trimAllSpace`: the first word,
then a space and the next word for each further word. -/
def joinWords : List (List Char) → List Char
  | [] => []
  | w :: ws => w ++ ws.flatMap (fun x => ' ' :: x)

/-- The maximal runs of non-white-space characters of a character sequence, in order: the
sequence is cut at every white space character and the empty pieces are dropped. This is the
reading of "field" that `trimAllSpace` is compared with; it is not used by the program. -/
def runs (l : List Char) : List (List Char) :=
  (l.splitOnP isSpace).filter (fun w => !w.isEmpty)

/-! ## The node tree of `golang.org/x/net/html` and the goquery operations -/

/-- The Go type `html.NodeType`. -/
inductive NodeType where
  | ErrorNode
  | TextNode
  | DocumentNode
  | ElementNode
  | CommentNode
  | DoctypeNode
  | RawNode
deriving DecidableEq, Repr

/-- The Go type `html.Attribute` (key and value). -/
structure Attribute where
  Key : String
  Val : String
deriving DecidableEq, Repr

/-- The Go type `html.Node`: its type, its data (the tag name of an element, the content of a
text node), its attributes and its children in order. -/
inductive Node where
  | mk (type : NodeType) (data : String) (attr : List Attribute) (children : List Node)

/-- Type of a node. -/
def Node.type : Node → NodeType
  | .mk t _ _ _ => t

/-- Data of a node. -/
def Node.data : Node → String
  | .mk _ d _ _ => d

/-- Attributes of a node. -/
def Node.attr : Node → List Attribute
  | .mk _ _ a _ => a

/-- Children of a node. -/
def Node.children : Node → List Node
  | .mk _ _ _ cs => cs

/-- The separators of a class list for cascadia: space, tab, CR, LF, FF. -/
def isClassSep (c : Char) : Bool :=
  c == ' ' || c == '\t' || c == '\r' || c == '\n' || c.toNat == 0x0C

/-- The loop of cascadia `matchInclude`: is `val` one of the separator-delimited pieces of the
attribute value? `cur` is the piece read so far. The piece that ends at a separator is compared
with `val`; the last piece is compared only when it is not empty. -/
def matchIncludeFrom (val : List Char) (cur : List Char) : List Char → Bool
  | [] => !cur.isEmpty && cur == val
  | c :: cs =>
    if isClassSep c then cur == val || matchIncludeFrom val [] cs
    else matchIncludeFrom val (cur ++ [c]) cs

/-- The selectors the program uses: a class selector `.c`, and a tag with an attribute
value, `tag[key='val']`. -/
inductive Selector where
  | cls (c : String)
  | tagAttr (tag key val : String)
deriving DecidableEq, Repr

/-- Does the selector match this node? Only element nodes match. A class selector needs an
attribute `class` whose value includes the class; `tag[key='val']` needs the tag name and an
attribute `key` whose value is `val`. -/
def Selector.matchesNode : Selector → Node → Bool
  | .cls c, n =>
    n.type == .ElementNode &&
      n.attr.any (fun a => a.Key == "class" && matchIncludeFrom c.data [] a.Val.data)
  | .tagAttr tag key val, n =>
    n.type == .ElementNode && n.data == tag &&
      n.attr.any (fun a => a.Key == key && a.Val == val)

mutual
/-- The nodes of the subtree of `n` (the node itself included) that match, in document order
(cascadia `MatchAll`). -/
def matchAll (sel : Selector) : Node → List Node
  | .mk t d a cs =>
    (if sel.matchesNode (.mk t d a cs) then [Node.mk t d a cs] else []) ++ matchAllList sel cs
/-- The nodes that match in the subtrees of a list of siblings. -/
def matchAllList (sel : Selector) : List Node → List Node
  | [] => []
  | c :: cs => matchAll sel c ++ matchAllList sel cs
end

/-- The goquery call `s.Find(selector)` on a selection of one node: the descendants of the
node that match, in document order; the search goes down from the element children. Both
`doc` and the selection handed to the callback of `Each` hold one node. -/
def Find (sel : Selector) (n : Node) : List Node :=
  (n.children.filter (fun c => c.type == .ElementNode)).flatMap (matchAll sel)

mutual
/-- The text of a node: the data of the text nodes of its subtree, in order. -/
def Node.text : Node → String
  | .mk t d _ cs => (if t = .TextNode then d else "") ++ textList cs
/-- The text of a list of nodes, concatenated. -/
def textList : List Node → String
  | [] => ""
  | c :: cs => c.text ++ textList cs
end

/-- The goquery call `Text()`: the combined text of every node of the selection. -/
def Text (sel : List Node) : String :=
  textList sel

/-- The goquery call `Attr(name)`: the value of the first attribute with that key on the first
node of the selection, and whether there is one; `("", false)` on an empty selection. -/
def Attr (sel : List Node) (name : String) : String × Bool :=
  match sel with
  | [] => ("", false)
  | n :: _ =>
    match n.attr.find? (fun a => a.Key == name) with
    | some a => (a.Val, true)
    | none => ("", false)

/-- The selector `.b-review-card`. -/
def selCard : Selector := .cls "b-review-card"

/-- The selector `div[itemprop='reviewBody']`. -/
def selReviewBody : Selector := .tagAttr "div" "itemprop" "reviewBody"

/-- The selector `.b-review-card__author-link`. -/
def selAuthor : Selector := .cls "b-review-card__author-link"

/-- The selector `div[itemprop='datePublished']`. -/
def selDate : Selector := .tagAttr "div" "itemprop" "datePublished"

/-- The selector `.b-review-card__comment`. -/
def selComment : Selector := .cls "b-review-card__comment"

/-- The selector `script[id='__NEXT_DATA__']`. -/
def selNextData : Selector := .tagAttr "script" "id" "__NEXT_DATA__"

/-! ## JSON values and `fmt` -/

/-- A finite `float64`: sign, and magnitude `mant * 2 ^ exp`. Decoding JSON gives finite
values only. -/
structure Float64 where
  neg : Bool
  mant : Nat
  exp : Int
deriving DecidableEq, Repr

/-- The `float64` of an integer (exact when the absolute value is at most `2 ^ 53`). -/
def Float64.ofInt (n : Int) : Float64 :=
  { neg := decide (n < 0), mant := n.natAbs, exp := 0 }

/-- The magnitude `mant * 2 ^ exp` rounded to the nearest integer, ties to even. -/
def roundHalfEven (mant : Nat) : Int → Nat
  | .ofNat k => mant * 2 ^ k
  | .negSucc k =>
    let d := 2 ^ (k + 1)
    let q := mant / d
    let r := mant % d
    if d < 2 * r || (2 * r == d && q % 2 == 1) then q + 1 else q

/-- Go `fmt.Sprintf("%.0f", x)` for a `float64`: the sign when the sign bit is set, then the
decimal digits of the magnitude rounded to an integer; no point, no exponent. -/
def formatF0 (x : Float64) : String :=
  (if x.neg then "-" else "") ++ toString (roundHalfEven x.mant x.exp)

/-- What `json.Unmarshal` stores in an `interface{}`: `nil`, `bool`, `float64`, `string`,
`[]interface{}` or `map[string]interface{}` (a map is its list of entries, looked up by key). -/
inductive Value where
  | nil
  | bool (b : Bool)
  | float64 (x : Float64)
  | string (s : String)
  | slice (items : List Value)
  | map (entries : List (String × Value))

/-- The Go type `map[string]interface{}`. -/
abbrev JMap := List (String × Value)

/-- Go `m[key]` on a `map[string]interface{}`: the value, or `nil` when the key is absent. -/
def JMap.index (m : JMap) (key : String) : Value :=
  (m.lookup key).getD .nil

/-- The type assertion `v.(map[string]interface{})`; `none` is the panic. -/
def Value.assertMap : Value → Option JMap
  | .map m => some m
  | _ => none

/-- The type assertion `v.([]interface{})`; `none` is the panic. -/
def Value.assertSlice : Value → Option (List Value)
  | .slice l => some l
  | _ => none

/-- The type assertion `v.(string)`; `none` is the panic. -/
def Value.assertString : Value → Option String
  | .string s => some s
  | _ => none

/-! ## The data model of `main.go` -/

/-- The struct `Review`. -/
structure Review where
  ID : String
  Name : String
  Date : String
  Message : String
  Source : String
deriving DecidableEq, Repr

/-- A Go `[]Review`: `none` is `nil`. -/
abbrev Slice := Option (List Review)

/-- Elements of a slice (`nil` has none). -/
def Slice.toList (s : Slice) : List Review :=
  s.getD []

/-- Go `append(s, r)`: the result is never `nil`. -/
def Slice.append (s : Slice) (r : Review) : Slice :=
  some (s.toList ++ [r])

/-- The struct `ApiResponseData`. -/
structure ApiResponseData where
  Code : Int
  Desc : String
  Reviews : Slice
deriving DecidableEq, Repr

/-- The struct `ApiResponse`. -/
structure ApiResponse where
  Error : Int
  Data : ApiResponseData
deriving DecidableEq, Repr

/-- An `io.Reader` over a page, seen through `goquery.NewDocumentFromReader`: the document
node it parses to, or `none` when reading fails. -/
structure Reader where
  document : Option Node

/-- The call `goquery.NewDocumentFromReader`. -/
def NewDocumentFromReader (r : Reader) : Option Node :=
  r.document

/-- The response of the HTTP client. -/
structure Response where
  IsSuccessState : Bool
  Body : Reader

/-- The surroundings of the program: `Get url` is what `client.R().Get(url)` gives (`none`
when it returns an error); `Unmarshal text` is the map `json.Unmarshal` leaves in `parsed`
(`none` is the nil map, left when the text is not a JSON object); `badVerb v` is what
`fmt.Sprintf("%.0f", v)` prints for an operand that is not a `float64`; `meanwhile g` is what
the package variable `reviews` holds when a GET returns, if it held `g` when the GET was
issued: the handlers of other requests run while this one waits. -/
structure World where
  Get : String → Option Response
  Unmarshal : String → Option JMap
  badVerb : Value → String
  meanwhile : Slice → Slice

/-- How a call ends: it returns `val` and leaves `reviews` in the package variable, it panics
(the package variable as it was at the panic), or `log.Fatal` ends the process. -/
inductive Result (α : Type) where
  | ok (val : α) (reviews : Slice)
  | panicked (reviews : Slice)
  | fatal
deriving DecidableEq, Repr

/-- The call `fmt.Sprintf("%.0f", v)` on an `interface{}`. -/
def Sprintf0f (W : World) : Value → String
  | .float64 x => formatF0 x
  | v => W.badVerb v

/-! ## The functions of `main.go` -/

/-- The function `makeSuccessResponse`. -/
def makeSuccessResponse (reviews : Slice) : ApiResponse :=
  { Error := 0, Data := { Code := 0, Desc := "", Reviews := reviews } }

/-- The function `makeErrorResponse`. -/
def makeErrorResponse (code : Int) (desc : String) : ApiResponse :=
  { Error := 1, Data := { Code := code, Desc := desc, Reviews := none } }

/-- The body of the callback of `Each` in `parseProdoctorov`: the review built from one
card. -/
def cardReview (s : Node) : Review :=
  let rid := (Attr (Find selReviewBody s) "data").1
  let name := Text (Find selAuthor s)
  let date := Text (Find selDate s)
  let message := Text (Find selComment s)
  { ID := rid
    Name := trimAllSpace name
    Date := trimAllSpace date
    Message := trimAllSpace message
    Source := "prodoctorov" }

/-- The function `parseProdoctorov`: every card, in document order, appends its review to the
package variable, which is returned. -/
def parseProdoctorov (result : Reader) (reviews : Slice) : Result Slice :=
  match NewDocumentFromReader result with
  | none => .fatal
  | some doc =>
    let reviews := (Find selCard doc).foldl (fun acc s => acc.append (cardReview s)) reviews
    .ok reviews reviews

/-- The chain of indexings and type assertions of `parseSberzdorovie` from `parsed` down to
`reviewsForSeo`; `none` when one of the assertions panics. Indexing the nil map gives `nil`. -/
def reviewsFromSber (parsed : Option JMap) : Option (List Value) := do
  let props ← (JMap.index (parsed.getD []) "props").assertMap
  let pageProps ← (props.index "pageProps").assertMap
  let preloadedState ← (pageProps.index "preloadedState").assertMap
  let doctorPage ← (preloadedState.index "doctorPage").assertMap
  let doctor ← (doctorPage.index "doctor").assertMap
  (doctor.index "reviewsForSeo").assertSlice

/-- The body of the loop of `parseSberzdorovie` up to the `append`: the review built from one
element of the array; `none` when a type assertion panics. -/
def itemReview (W : World) (item : Value) : Option Review := do
  let review ← item.assertMap
  let rid := Sprintf0f W (review.index "id")
  let name ← (review.index "name").assertString
  let date ← (review.index "date").assertString
  let text ← (review.index "text").assertString
  pure { ID := rid, Name := name, Date := date, Message := text, Source := "sberzdorovie" }

/-- The loop of `parseSberzdorovie` over the array. -/
def sberLoop (W : World) : List Value → Slice → Result Slice
  | [], reviews => .ok reviews reviews
  | item :: rest, reviews =>
    match itemReview W item with
    | none => .panicked reviews
    | some r => sberLoop W rest (reviews.append r)

/-- The function `parseSberzdorovie`. An error of `json.Unmarshal` is printed and the walk
goes on with the nil map. -/
def parseSberzdorovie (W : World) (result : Reader) (reviews : Slice) : Result Slice :=
  match NewDocumentFromReader result with
  | none => .fatal
  | some doc =>
    let res := Text (Find selNextData doc)
    let parsed := W.Unmarshal res
    match reviewsFromSber parsed with
    | none => .panicked reviews
    | some reviewsFromSber => sberLoop W reviewsFromSber reviews

/-- The function `findReviews`. -/
def findReviews (W : World) (result : Reader) (platform : String) (reviews : Slice) :
    Result Slice :=
  if platform = "prodoctorov" then parseProdoctorov result reviews
  else if platform = "sberzdorovie" then parseSberzdorovie W result reviews
  else .ok reviews reviews

/-- The function `runParser`: the package variable is reset to `nil`, the page is fetched,
and `findReviews` runs on the body of a successful response. Every `reviews` after the GET
reads the package variable as it is then. -/
def runParser (W : World) (platform doctorUrl : String) (_reviews : Slice) : Result Slice :=
  let reviews : Slice := none
  let got := W.Get doctorUrl
  let reviews := W.meanwhile reviews
  match got with
  | none => .ok reviews reviews
  | some resp =>
    if !resp.IsSuccessState then .ok reviews reviews
    else findReviews W resp.Body platform reviews

/-- The request as `PostHandler` reads it: the method and the two form values. -/
structure Request where
  Method : String
  platform : String
  doctorUrl : String

/-- What `PostHandler` writes: the JSON encoding of an `ApiResponse`, or the error
"Invalid request method" with status 405. -/
inductive Reply where
  | encoded (resp : ApiResponse)
  | methodNotAllowed
deriving DecidableEq, Repr

/-- The function `PostHandler`. -/
def PostHandler (W : World) (r : Request) (reviews : Slice) : Result Reply :=
  if r.Method = "POST" then
    if (TrimSpace r.platform).length = 0 ∨ (TrimSpace r.doctorUrl).length = 0 then
      .ok (.encoded (makeErrorResponse 400 "Неверное значение параметров")) reviews
    else
      match runParser W r.platform r.doctorUrl reviews with
      | .ok reviews g =>
        if reviews ≠ none then .ok (.encoded (makeSuccessResponse reviews)) g
        else .ok (.encoded (makeErrorResponse 400 "Ошибка получения данных")) g
      | .panicked g => .panicked g
      | .fatal => .fatal
  else .ok .methodNotAllowed reviews

/-! ## What the claims are compared with -/

/-- The value reached from `v` by following the keys in order: every step needs a map that
has the key. -/
def follow : List String → Value → Option Value
  | [], v => some v
  | k :: ks, .map m =>
    match m.lookup k with
    | some v => follow ks v
    | none => none
  | _ :: _, _ => none

/-- The chain of keys from the top of the payload down to the array of reviews. -/
def chainKeys : List String :=
  ["props", "pageProps", "preloadedState", "doctorPage", "doctor", "reviewsForSeo"]

/-- The payload holds the array `items` at the end of the chain of keys. A payload that is not
a JSON object is decoded to the nil map, which has no key. -/
def ChainReaches (parsed : Option JMap) (items : List Value) : Prop :=
  follow chainKeys (.map (parsed.getD [])) = some (.slice items)

/-- The element is an object whose `name`, `date` and `text` are strings. -/
def TextFieldsOk (item : Value) : Prop :=
  ∃ m n d t, item = .map m ∧ m.lookup "name" = some (.string n) ∧
    m.lookup "date" = some (.string d) ∧ m.lookup "text" = some (.string t)

/-- The element is a well-formed review: an object whose `id` is a number and whose `name`,
`date` and `text` are strings. -/
def WellFormedItem (item : Value) : Prop :=
  ∃ m x n d t, item = .map m ∧ m.lookup "id" = some (.float64 x) ∧
    m.lookup "name" = some (.string n) ∧ m.lookup "date" = some (.string d) ∧
    m.lookup "text" = some (.string t)

/-- The float `x` is the integer `n`: the sign bit is set exactly when `n` is negative and the
magnitude `mant * 2 ^ exp` is the absolute value of `n`. -/
def Float64.IsInt (x : Float64) (n : Int) : Prop :=
  x.neg = decide (n < 0) ∧
    match x.exp with
    | .ofNat k => x.mant * 2 ^ k = n.natAbs
    | .negSucc k => x.mant = n.natAbs * 2 ^ (k + 1)

/-- The call returns a slice of exactly `N` reviews, and for every `i < N` the `i`-th of them is
the review `nth i`. -/
def ReturnsExactly (res : Result Slice) (N : Nat) (nth : Nat → Option Review) : Prop :=
  ∃ out, res = .ok out out ∧ out.toList.length = N ∧
    ∀ i, i < N → ∃ r, nth i = some r ∧ out.toList[i]? = some r

/-- The float `x` has the integer value `n`: its magnitude `mant * 2 ^ exp` is the absolute
value of `n`, and its sign bit is set when `n` is negative and clear when `n` is positive. For
`n = 0` both zeros qualify. -/
def Float64.HasValue (x : Float64) (n : Int) : Prop :=
  (n < 0 → x.neg = true) ∧ (0 < n → x.neg = false) ∧
    match x.exp with
    | .ofNat k => x.mant * 2 ^ k = n.natAbs
    | .negSucc k => x.mant = n.natAbs * 2 ^ (k + 1)

/-! ## Sample pages -/

/-- A text node. -/
def txt (s : String) : Node :=
  .mk .TextNode s [] []

/-- An element node. -/
def el (tag : String) (attrs : List Attribute) (children : List Node) : Node :=
  .mk .ElementNode tag attrs children

/-- A page: the document node over `html`, `head` and `body`. -/
def pageOf (body : List Node) : Node :=
  .mk .DocumentNode "" [] [el "html" [] [el "head" [] [], el "body" [] body]]

/-- A review card with all four sub-elements. -/
def fullCard (rid name date message : String) : Node :=
  el "div" [⟨"class", "b-review-card"⟩]
    [ el "a" [⟨"class", "b-link b-review-card__author-link"⟩] [txt name],
      el "div" [⟨"itemprop", "datePublished"⟩] [txt date],
      el "div" [⟨"itemprop", "reviewBody"⟩, ⟨"data", rid⟩]
        [el "div" [⟨"class", "b-review-card__comment"⟩] [txt message]] ]

/-- A page with two review cards. -/
def twoCardPage : Node :=
  pageOf
    [ fullCard "42" " Anna\n K. " "1 May 2024" "  Great\n  doctor ",
      fullCard "43" "Boris" "2 May 2024" "Fine" ]

/-- A page without any review card. -/
def noCardPage : Node :=
  pageOf [el "p" [] [txt "No reviews yet"]]

/-- A page with one review card. -/
def oneCardPage : Node :=
  pageOf [fullCard "43" "Boris" "2 May 2024" "Fine"]

/-- A page that carries a hydration payload in its `__NEXT_DATA__` script. -/
def sberPage : Node :=
  pageOf [el "script" [⟨"id", "__NEXT_DATA__"⟩, ⟨"type", "application/json"⟩] [txt "payload"]]

/-- The decoded payload whose `doctor` object has the given entries. -/
def payloadWith (doctor : JMap) : JMap :=
  [("props", .map [("pageProps", .map [("preloadedState",
    .map [("doctorPage", .map [("doctor", .map doctor)])])])])]

/-- A world whose every GET succeeds with the page `doc`, and whose decoder yields `payload`;
its `fmt` is only asked about the missing operand, which prints as `%!f(<nil>)`; no other
request is under way. -/
def serving (doc : Node) (payload : Option JMap) : World :=
  { Get := fun _ => some { IsSuccessState := true, Body := { document := some doc } }
    Unmarshal := fun _ => payload
    badVerb := fun _ => "%!f(<nil>)"
    meanwhile := fun g => g }

/-- What the extraction of another request, for the page `doc` on `prodoctorov`, makes of the
package variable: the program's own `findReviews` run on it. -/
def otherExtraction (doc : Node) (g : Slice) : Slice :=
  match findReviews (serving doc none) { document := some doc } "prodoctorov" g with
  | .ok _ left => left
  | .panicked left => left
  | .fatal => g

/-- A well-formed element of `reviewsForSeo`. -/
def sberItem (id : Int) (name date text : String) : Value :=
  .map [("id", .float64 (Float64.ofInt id)), ("name", .string name), ("date", .string date),
    ("text", .string text)]

/-- Two well-formed elements. -/
def twoItems : List Value :=
  [sberItem 123 "Anna" "2024-05-01" "Great doctor", sberItem 124 "Boris" "2024-05-02" "Fine"]

/-- A page with a hydration payload and two review cards. -/
def mixedPage : Node :=
  pageOf
    [ el "script" [⟨"id", "__NEXT_DATA__"⟩, ⟨"type", "application/json"⟩] [txt "payload"],
      fullCard "42" " Anna\n K. " "1 May 2024" "  Great\n  doctor ",
      fullCard "43" "Boris" "2 May 2024" "Fine" ]

/-- The world that serves `mixedPage` with the two well-formed elements in its payload. -/
def mixedWorld : World :=
  serving mixedPage (some (payloadWith [("id", .float64 (Float64.ofInt 9)),
    ("reviewsForSeo", .slice twoItems)]))

/-- The world that serves `sberPage` with a payload that lacks only `reviewsForSeo`. -/
def noArrayWorld : World :=
  serving sberPage (some (payloadWith [("id", .float64 (Float64.ofInt 9))]))

/-- An element whose `name` is a number. -/
def badNameItem : Value :=
  .map [("id", .float64 (Float64.ofInt 5)), ("name", .float64 (Float64.ofInt 1)),
    ("date", .string "2024-05-03"), ("text", .string "Bad")]

/-- The world that serves `sberPage` with a well-formed element followed by `badNameItem`. -/
def badNameWorld : World :=
  serving sberPage (some (payloadWith [("reviewsForSeo",
    .slice [sberItem 123 "Anna" "2024-05-01" "Great doctor", badNameItem])]))

/-- An element without `id`, whose `name`, `date` and `text` are strings. -/
def noIdItem : Value :=
  .map [("name", .string "Anna"), ("date", .string "2024-05-01"), ("text", .string "Good")]

/-- The world that serves `sberPage` with `noIdItem` as the only element. -/
def noIdWorld : World :=
  serving sberPage (some (payloadWith [("reviewsForSeo", .slice [noIdItem])]))

/-- The world of a request for `oneCardPage` that overlaps a request for `twoCardPage`: the
extraction of the other request runs while this one waits for its GET. -/
def overlapWorld : World :=
  { Get := fun _ => some { IsSuccessState := true, Body := { document := some oneCardPage } }
    Unmarshal := fun _ => none
    badVerb := fun _ => "%!f(<nil>)"
    meanwhile := otherExtraction twoCardPage }

/-- The negative zero `-0.0`, which `json.Unmarshal` decodes from the JSON number `-0`. -/
def negativeZero : Float64 :=
  { neg := true, mant := 0, exp := 0 }

/-- An element whose `id` is the JSON number `-0`. -/
def negativeZeroItem : Value :=
  .map [("id", .float64 negativeZero), ("name", .string "Anna"), ("date", .string "2024-05-01"),
    ("text", .string "Good")]

/-- A review left in the package variable by an earlier call. -/
def staleReview : Review :=
  { ID := "7", Name := "Earlier", Date := "1 Jan 2024", Message := "Old", Source := "prodoctorov" }

/-! ## Lemmas on `strings.Fields` and `strings.Join` -/

theorem fieldsFrom_eq_split (l : List Char) : ∀ cur : List Char,
    fieldsFrom cur l =
      ((l.splitOnP isSpace).modifyHead (fun w => cur ++ w)).filter (fun w => !w.isEmpty) := by
  induction l with
  | nil =>
    intro cur
    cases cur <;> simp [fieldsFrom]
  | cons c cs ih =>
    intro cur
    by_cases hc : isSpace c = true
    · have h0 := ih []
      simp only [List.nil_append] at h0
      have hid : (List.splitOnP isSpace cs).modifyHead (fun w => w) = List.splitOnP isSpace cs := by
        cases List.splitOnP isSpace cs <;> rfl
      rw [hid] at h0
      cases cur with
      | nil => simp [fieldsFrom, hc, h0]
      | cons a as => simp [fieldsFrom, hc, h0]
    · have h1 := ih (cur ++ [c])
      have hf : ((fun w => cur ++ w) ∘ List.cons c) = fun w => cur ++ [c] ++ w := by
        funext w
        simp
      have hc2 : isSpace c = false := by simpa using hc
      rw [List.splitOnP_cons, if_neg hc, List.modifyHead_modifyHead, hf, ← h1]
      simp [fieldsFrom, hc2]

theorem fieldsFrom_nil_eq_runs (l : List Char) : fieldsFrom [] l = runs l := by
  rw [fieldsFrom_eq_split, runs]
  congr 1
  cases List.splitOnP isSpace l <;> rfl

theorem fieldsFrom_ne_nil (l : List Char) : ∀ cur : List Char, cur ≠ [] → fieldsFrom cur l ≠ [] := by
  induction l with
  | nil =>
    intro cur h
    cases cur with
    | nil => exact absurd rfl h
    | cons a as => simp [fieldsFrom]
  | cons c cs ih =>
    intro cur h
    cases cur with
    | nil => exact absurd rfl h
    | cons a as =>
      by_cases hc : isSpace c = true
      · simp [fieldsFrom, hc]
      · simp only [fieldsFrom, hc, Bool.false_eq_true, if_false]
        exact ih _ (by simp)

theorem fieldsFrom_eq_nil_iff (l : List Char) :
    fieldsFrom [] l = [] ↔ ∀ c ∈ l, isSpace c = true := by
  induction l with
  | nil => simp [fieldsFrom]
  | cons c cs ih =>
    by_cases hc : isSpace c = true
    · simp [fieldsFrom, hc, ih]
    · simp only [fieldsFrom, hc, Bool.false_eq_true, if_false, List.nil_append, List.mem_cons,
        forall_eq_or_imp, false_and, iff_false]
      exact fieldsFrom_ne_nil cs [c] (by simp)

theorem fieldsFrom_words (l : List Char) : ∀ cur : List Char,
    (∀ c ∈ cur, isSpace c = false) →
      ∀ w ∈ fieldsFrom cur l, w ≠ [] ∧ ∀ c ∈ w, isSpace c = false := by
  induction l with
  | nil =>
    intro cur hcur w hw
    cases cur with
    | nil => simp [fieldsFrom] at hw
    | cons a as =>
      simp [fieldsFrom] at hw
      subst hw
      exact ⟨by simp, hcur⟩
  | cons c cs ih =>
    intro cur hcur w hw
    by_cases hc : isSpace c = true
    · cases cur with
      | nil =>
        simp only [fieldsFrom, hc, if_true, List.isEmpty_nil] at hw
        exact ih [] (by simp) w hw
      | cons a as =>
        simp only [fieldsFrom, hc, if_true, List.isEmpty_cons, Bool.false_eq_true, if_false,
          List.mem_cons] at hw
        rcases hw with hw | hw
        · subst hw
          exact ⟨by simp, hcur⟩
        · exact ih [] (by simp) w hw
    · simp only [fieldsFrom, hc, Bool.false_eq_true, if_false] at hw
      refine ih (cur ++ [c]) ?_ w hw
      intro x hx
      rcases List.mem_append.mp hx with hx | hx
      · exact hcur x hx
      · simp at hx
        subst hx
        simpa using hc

theorem fieldsFrom_append_word (w : List Char) : ∀ (cur rest : List Char),
    (∀ c ∈ w, isSpace c = false) → fieldsFrom cur (w ++ rest) = fieldsFrom (cur ++ w) rest := by
  induction w with
  | nil => intro cur rest _; simp
  | cons c cs ih =>
    intro cur rest h
    have hc : isSpace c = false := h c (by simp)
    rw [List.cons_append]
    simp only [fieldsFrom, hc, Bool.false_eq_true, if_false]
    rw [ih (cur ++ [c]) rest (fun x hx => h x (by simp [hx]))]
    simp

theorem fieldsFrom_joined (ws : List (List Char)) : ∀ cur : List Char, cur ≠ [] →
    (∀ w ∈ ws, w ≠ [] ∧ ∀ c ∈ w, isSpace c = false) →
      fieldsFrom cur (ws.flatMap (fun x => ' ' :: x)) = cur :: ws := by
  induction ws with
  | nil =>
    intro cur h _
    cases cur with
    | nil => exact absurd rfl h
    | cons a as => simp [fieldsFrom]
  | cons w ws ih =>
    intro cur h hws
    have hw := hws w (by simp)
    have hsp : isSpace ' ' = true := by decide
    cases cur with
    | nil => exact absurd rfl h
    | cons a as =>
      rw [List.flatMap_cons, List.cons_append]
      simp only [fieldsFrom, hsp, if_true, List.isEmpty_cons, Bool.false_eq_true, if_false]
      rw [fieldsFrom_append_word w [] _ hw.2, List.nil_append,
        ih w hw.1 (fun x hx => hws x (by simp [hx]))]

theorem foldl_join_data (es : List String) : ∀ b : String,
    (es.foldl (fun b x => b ++ " " ++ x) b).data =
      b.data ++ es.flatMap (fun x => ' ' :: x.data) := by
  induction es with
  | nil => intro b; simp
  | cons e es ih =>
    intro b
    simp only [List.foldl_cons, ih, List.flatMap_cons, String.data_append]
    simp

theorem Join_cons_data (e : String) (es : List String) :
    (Join (e :: es) " ").data = e.data ++ es.flatMap (fun x => ' ' :: x.data) := by
  cases es with
  | nil => simp [Join]
  | cons e2 es => simp only [Join]; exact foldl_join_data _ _

theorem trimAllSpace_data (s : String) :
    (trimAllSpace s).data = joinWords (fieldsFrom [] s.data) := by
  unfold trimAllSpace Fields
  cases fieldsFrom [] s.data with
  | nil => simp [Join, joinWords]
  | cons w ws =>
    rw [List.map_cons, Join_cons_data]
    simp [joinWords, List.flatMap_def, Function.comp_def]

theorem fieldsFrom_joinWords (ws : List (List Char))
    (h : ∀ w ∈ ws, w ≠ [] ∧ ∀ c ∈ w, isSpace c = false) :
    fieldsFrom [] (joinWords ws) = ws := by
  cases ws with
  | nil => simp [joinWords, fieldsFrom]
  | cons w ws =>
    have hw := h w (by simp)
    rw [joinWords, fieldsFrom_append_word w [] _ hw.2, List.nil_append]
    exact fieldsFrom_joined ws w hw.1 (fun x hx => h x (by simp [hx]))

theorem fieldsFrom_nil_words (l : List Char) :
    ∀ w ∈ fieldsFrom [] l, w ≠ [] ∧ ∀ c ∈ w, isSpace c = false :=
  fieldsFrom_words l [] (by simp)

theorem Fields_trimAllSpace (s : String) : Fields (trimAllSpace s) = Fields s := by
  unfold Fields
  rw [trimAllSpace_data, fieldsFrom_joinWords _ (fieldsFrom_nil_words s.data)]

theorem chain_of_no_space (l : List Char) (h : ∀ c ∈ l, isSpace c = false) :
    List.Chain' (fun a b => ¬(isSpace a = true ∧ isSpace b = true)) l := by
  induction l with
  | nil => exact List.chain'_nil
  | cons a as ih =>
    rw [List.chain'_cons']
    refine ⟨?_, ih (fun c hc => h c (by simp [hc]))⟩
    intro y _ hy
    have ha := h a (by simp)
    rw [ha] at hy
    exact Bool.false_ne_true hy.1

theorem joined_getLast (ws : List (List Char)) : ∀ cur : List Char,
    (cur ≠ [] ∧ ∀ c ∈ cur, isSpace c = false) →
    (∀ w ∈ ws, w ≠ [] ∧ ∀ c ∈ w, isSpace c = false) →
      ∀ c, (cur ++ ws.flatMap (fun x => ' ' :: x)).getLast? = some c → isSpace c = false := by
  induction ws with
  | nil =>
    intro cur hcur _ c hc
    simp only [List.flatMap_nil, List.append_nil] at hc
    exact hcur.2 c (List.mem_of_getLast?_eq_some hc)
  | cons w ws ih =>
    intro cur _ hws c hc
    have hw := hws w (by simp)
    have hne : w ++ ws.flatMap (fun x => ' ' :: x) ≠ [] := by simp [hw.1]
    have hsplit : cur ++ (w :: ws).flatMap (fun x => ' ' :: x) =
        (cur ++ [' ']) ++ (w ++ ws.flatMap (fun x => ' ' :: x)) := by
      simp [List.flatMap_cons]
    rw [hsplit, List.getLast?_append_of_ne_nil _ hne] at hc
    exact ih w hw (fun x hx => hws x (by simp [hx])) c hc

theorem joined_chain (ws : List (List Char)) : ∀ cur : List Char,
    (∀ c ∈ cur, isSpace c = false) →
    (∀ w ∈ ws, w ≠ [] ∧ ∀ c ∈ w, isSpace c = false) →
      List.Chain' (fun a b => ¬(isSpace a = true ∧ isSpace b = true))
        (cur ++ ws.flatMap (fun x => ' ' :: x)) := by
  induction ws with
  | nil =>
    intro cur hcur _
    simpa using chain_of_no_space cur hcur
  | cons w ws ih =>
    intro cur hcur hws
    have hw := hws w (by simp)
    have hrest := ih w hw.2 (fun x hx => hws x (by simp [hx]))
    rw [List.flatMap_cons, List.cons_append, List.chain'_append]
    refine ⟨chain_of_no_space cur hcur, ?_, ?_⟩
    · rw [List.chain'_cons']
      refine ⟨?_, hrest⟩
      intro y hy hsp
      obtain ⟨a, as, rfl⟩ := List.exists_cons_of_ne_nil hw.1
      simp only [List.cons_append, List.head?_cons, Option.mem_def, Option.some.injEq] at hy
      subst hy
      have ha := hw.2 a (by simp)
      rw [ha] at hsp
      exact Bool.false_ne_true hsp.2
    · intro x hx y _ hsp
      have hxs := hcur x (List.mem_of_mem_getLast? hx)
      rw [hxs] at hsp
      exact Bool.false_ne_true hsp.1

theorem joinWords_eq_nil_iff (ws : List (List Char))
    (h : ∀ w ∈ ws, w ≠ [] ∧ ∀ c ∈ w, isSpace c = false) : joinWords ws = [] ↔ ws = [] := by
  cases ws with
  | nil => simp [joinWords]
  | cons w ws =>
    have hw := h w (by simp)
    simp [joinWords, hw.1]

theorem joinWords_space (ws : List (List Char))
    (h : ∀ w ∈ ws, w ≠ [] ∧ ∀ c ∈ w, isSpace c = false) :
    ∀ c ∈ joinWords ws, isSpace c = true → c = ' ' := by
  intro c hc hsp
  cases ws with
  | nil => simp [joinWords] at hc
  | cons w ws =>
    simp only [joinWords, List.mem_append, List.mem_flatMap, List.mem_cons] at hc
    rcases hc with hc | ⟨x, hx, hc⟩
    · have := (h w (by simp)).2 c hc
      rw [this] at hsp
      exact absurd hsp Bool.false_ne_true
    · rcases hc with hc | hc
      · exact hc
      · have := (h x (by simp [hx])).2 c hc
        rw [this] at hsp
        exact absurd hsp Bool.false_ne_true

theorem joinWords_head (ws : List (List Char))
    (h : ∀ w ∈ ws, w ≠ [] ∧ ∀ c ∈ w, isSpace c = false) :
    ∀ c, (joinWords ws).head? = some c → isSpace c = false := by
  intro c hc
  cases ws with
  | nil => simp [joinWords] at hc
  | cons w ws =>
    have hw := h w (by simp)
    obtain ⟨a, as, rfl⟩ := List.exists_cons_of_ne_nil hw.1
    simp only [joinWords, List.cons_append, List.head?_cons, Option.some.injEq] at hc
    subst hc
    exact hw.2 a (by simp)

theorem joinWords_getLast (ws : List (List Char))
    (h : ∀ w ∈ ws, w ≠ [] ∧ ∀ c ∈ w, isSpace c = false) :
    ∀ c, (joinWords ws).getLast? = some c → isSpace c = false := by
  intro c hc
  cases ws with
  | nil => simp [joinWords] at hc
  | cons w ws =>
    exact joined_getLast ws w (h w (by simp)) (fun x hx => h x (by simp [hx])) c hc

theorem joinWords_chain (ws : List (List Char))
    (h : ∀ w ∈ ws, w ≠ [] ∧ ∀ c ∈ w, isSpace c = false) :
    List.Chain' (fun a b => ¬(isSpace a = true ∧ isSpace b = true)) (joinWords ws) := by
  cases ws with
  | nil => exact List.chain'_nil
  | cons w ws =>
    exact joined_chain ws w (h w (by simp)).2 (fun x hx => h x (by simp [hx]))

/-! ## Whitespace normalization -/

/-- C2: whitespace normalization is idempotent: for every string `s`,
`trimAllSpace (trimAllSpace s) = trimAllSpace s`. -/
theorem C2_trimAllSpace_idempotent (s : String) :
    trimAllSpace (trimAllSpace s) = trimAllSpace s := by
  show Join (Fields (trimAllSpace s)) " " = Join (Fields s) " "
  rw [Fields_trimAllSpace]

/-- C3: for every string `s`, `trimAllSpace s` is the whitespace-normalized form of `s`: it does
not start and does not end with a white space character, every white space character in it is
U+0020, no two white space characters are adjacent, its maximal runs of non-white-space
characters are those of `s` in the same order, and it is empty exactly when `s` holds only
white space. -/
theorem C3_trimAllSpace_normal_form (s : String) :
    (∀ c, (trimAllSpace s).data.head? = some c → isSpace c = false) ∧
    (∀ c, (trimAllSpace s).data.getLast? = some c → isSpace c = false) ∧
    (∀ c ∈ (trimAllSpace s).data, isSpace c = true → c = ' ') ∧
    List.Chain' (fun a b => ¬(isSpace a = true ∧ isSpace b = true)) (trimAllSpace s).data ∧
    runs (trimAllSpace s).data = runs s.data ∧
    (trimAllSpace s = "" ↔ ∀ c ∈ s.data, isSpace c = true) := by
  have hw := fieldsFrom_nil_words s.data
  refine ⟨?_, ?_, ?_, ?_, ?_, ?_⟩
  · rw [trimAllSpace_data]
    exact joinWords_head _ hw
  · rw [trimAllSpace_data]
    exact joinWords_getLast _ hw
  · rw [trimAllSpace_data]
    exact joinWords_space _ hw
  · rw [trimAllSpace_data]
    exact joinWords_chain _ hw
  · rw [← fieldsFrom_nil_eq_runs, ← fieldsFrom_nil_eq_runs, trimAllSpace_data,
      fieldsFrom_joinWords _ hw]
  · rw [← fieldsFrom_eq_nil_iff, ← joinWords_eq_nil_iff _ hw, ← trimAllSpace_data]
    constructor
    · intro h
      rw [h]
    · intro h
      exact String.ext h

/-! ## Lemmas on the extractors -/

theorem foldl_append_toList (f : Node → Review) (cards : List Node) : ∀ g : Slice,
    (cards.foldl (fun acc s => acc.append (f s)) g).toList = g.toList ++ cards.map f := by
  induction cards with
  | nil => intro g; simp
  | cons c cs ih =>
    intro g
    rw [List.foldl_cons, ih]
    simp [Slice.append, Slice.toList]

theorem follow_cons_cons (k k2 : String) (ks : List String) (m : JMap) :
    follow (k :: k2 :: ks) (.map m) =
      (JMap.index m k).assertMap.bind (fun m2 => follow (k2 :: ks) (.map m2)) := by
  rw [follow, JMap.index]
  cases h : List.lookup k m with
  | none => simp [Value.assertMap]
  | some v => cases v <;> simp [Value.assertMap, follow]

theorem follow_single (k : String) (m : JMap) (items : List Value) :
    follow [k] (.map m) = some (.slice items) ↔ (JMap.index m k).assertSlice = some items := by
  rw [follow, JMap.index]
  cases h : List.lookup k m with
  | none => simp [Value.assertSlice]
  | some v => cases v <;> simp [Value.assertSlice, follow]

theorem reviewsFromSber_eq_some_iff (parsed : Option JMap) (items : List Value) :
    reviewsFromSber parsed = some items ↔ ChainReaches parsed items := by
  unfold ChainReaches chainKeys reviewsFromSber
  simp only [follow_cons_cons, Option.bind_eq_bind, Option.bind_eq_some, follow_single]

theorem itemReview_of_wellFormed (W : World) (item : Value) (h : TextFieldsOk item) :
    ∃ r, itemReview W item = some r := by
  obtain ⟨m, n, d, t, rfl, hn, hd, ht⟩ := h
  simp [itemReview, Value.assertMap, JMap.index, hn, hd, ht, Value.assertString]

theorem textFieldsOk_of_itemReview (W : World) (item : Value) (r : Review)
    (h : itemReview W item = some r) : TextFieldsOk item := by
  cases item with
  | map m =>
    simp only [itemReview, Value.assertMap, JMap.index, Option.bind_eq_bind, Option.some_bind,
      Option.bind_eq_some, Option.pure_def] at h
    obtain ⟨n, hn, d, hd, t, ht, _⟩ := h
    refine ⟨m, n, d, t, rfl, ?_, ?_, ?_⟩
    · cases hl : List.lookup "name" m with
      | none => simp [hl, Value.assertString] at hn
      | some v => cases v <;> simp_all [Value.assertString]
    · cases hl : List.lookup "date" m with
      | none => simp [hl, Value.assertString] at hd
      | some v => cases v <;> simp_all [Value.assertString]
    · cases hl : List.lookup "text" m with
      | none => simp [hl, Value.assertString] at ht
      | some v => cases v <;> simp_all [Value.assertString]
  | _ => simp [itemReview, Value.assertMap] at h

theorem sberLoop_ok (W : World) (items : List Value) : ∀ g : Slice,
    (∀ x ∈ items, ∃ r, itemReview W x = some r) →
      ∃ out, sberLoop W items g = .ok out out ∧
        out.toList.map some = g.toList.map some ++ items.map (itemReview W) := by
  induction items with
  | nil => intro g _; exact ⟨g, rfl, by simp⟩
  | cons x xs ih =>
    intro g h
    obtain ⟨r, hr⟩ := h x (by simp)
    obtain ⟨out, hout, hlist⟩ := ih (g.append r) (fun y hy => h y (by simp [hy]))
    refine ⟨out, ?_, ?_⟩
    · simp only [sberLoop, hr]
      exact hout
    · rw [hlist]
      simp [Slice.append, Slice.toList, hr]

theorem sberLoop_panics (W : World) (items : List Value) : ∀ g : Slice,
    (∃ x ∈ items, itemReview W x = none) → ∃ g2, sberLoop W items g = .panicked g2 := by
  induction items with
  | nil => intro g h; simp at h
  | cons x xs ih =>
    intro g h
    cases hx : itemReview W x with
    | none => exact ⟨g, by simp [sberLoop, hx]⟩
    | some r =>
      obtain ⟨y, hy, hnone⟩ := h
      rcases List.mem_cons.mp hy with rfl | hy
      · rw [hx] at hnone
        cases hnone
      · obtain ⟨g2, hg2⟩ := ih (g.append r) ⟨y, hy, hnone⟩
        exact ⟨g2, by simp only [sberLoop, hx]; exact hg2⟩

theorem runParser_fetched (W : World) (platform url : String) (g : Slice) (resp : Response)
    (hget : W.Get url = some resp) (hok : resp.IsSuccessState = true) :
    runParser W platform url g = findReviews W resp.Body platform (W.meanwhile none) := by
  simp [runParser, hget, hok]

theorem parseProdoctorov_returns (result : Reader) (doc : Node) (g : Slice)
    (hdoc : NewDocumentFromReader result = some doc) :
    ∃ out, parseProdoctorov result g = .ok out out ∧
      out.toList = g.toList ++ (Find selCard doc).map cardReview := by
  refine ⟨(Find selCard doc).foldl (fun acc s => acc.append (cardReview s)) g, ?_, ?_⟩
  · simp [parseProdoctorov, hdoc]
  · exact foldl_append_toList cardReview _ g

theorem parseSberzdorovie_reached (W : World) (result : Reader) (doc : Node) (g : Slice)
    (items : List Value) (hdoc : NewDocumentFromReader result = some doc)
    (hreach : ChainReaches (W.Unmarshal (Text (Find selNextData doc))) items) :
    parseSberzdorovie W result g = sberLoop W items g := by
  have h := (reviewsFromSber_eq_some_iff _ _).mpr hreach
  simp [parseSberzdorovie, hdoc, h]

/-! ## The pipeline -/

/-- A pipeline call that no other request overlaps (the package variable is still `nil` when
the GET returns) gives exactly one review per card, respectively per well-formed element, in
document order. -/
theorem pipeline_alone_returns_reviews_in_document_order (W : World) (url : String) (g : Slice)
    (resp : Response) (doc : Node) (hget : W.Get url = some resp)
    (hok : resp.IsSuccessState = true) (hdoc : NewDocumentFromReader resp.Body = some doc)
    (hquiet : W.meanwhile none = none) :
    ReturnsExactly (runParser W "prodoctorov" url g) (Find selCard doc).length
        (fun i => ((Find selCard doc)[i]?).map cardReview) ∧
      ∀ items : List Value,
        ChainReaches (W.Unmarshal (Text (Find selNextData doc))) items →
        (∀ x ∈ items, WellFormedItem x) →
          ReturnsExactly (runParser W "sberzdorovie" url g) items.length
            (fun i => (items[i]?).bind (itemReview W)) := by
  constructor
  · obtain ⟨out, hout, hlist⟩ := parseProdoctorov_returns resp.Body doc none hdoc
    refine ⟨out, ?_, ?_, ?_⟩
    · rw [runParser_fetched W _ url g resp hget hok, hquiet]
      simp [findReviews, hout]
    · rw [hlist]
      simp [Slice.toList]
    · intro i hi
      refine ⟨cardReview ((Find selCard doc)[i]), ?_, ?_⟩
      · simp [List.getElem?_eq_getElem hi]
      · rw [hlist]
        simp [Slice.toList, List.getElem?_eq_getElem hi]
  · intro items hreach hwf
    have hall : ∀ x ∈ items, ∃ r, itemReview W x = some r := by
      intro x hx
      obtain ⟨m, _, n, d, t, rfl, _, hn, hd, ht⟩ := hwf x hx
      exact itemReview_of_wellFormed W _ ⟨m, n, d, t, rfl, hn, hd, ht⟩
    obtain ⟨out, hout, hlist⟩ := sberLoop_ok W items none hall
    have hlist2 : out.toList.map some = items.map (itemReview W) := by
      simpa [Slice.toList] using hlist
    have hlen : out.toList.length = items.length := by
      simpa using congrArg List.length hlist2
    refine ⟨out, ?_, hlen, ?_⟩
    · rw [runParser_fetched W _ url g resp hget hok, hquiet]
      simp [findReviews, parseSberzdorovie_reached W _ doc none items hdoc hreach, hout]
    · intro i hi
      have hi2 : i < out.toList.length := by omega
      refine ⟨out.toList[i], ?_, by simp [List.getElem?_eq_getElem hi2]⟩
      have h := congrArg (fun l => l[i]?) hlist2
      simp only [List.getElem?_map, List.getElem?_eq_getElem hi, List.getElem?_eq_getElem hi2,
        Option.map_some'] at h
      simpa [List.getElem?_eq_getElem hi] using (Option.some.inj h).symm

/-- The call that runs alone, on a page with two cards and a payload of two elements: both
platforms give two reviews in the order of the page. -/
theorem pipeline_alone_example :
    ReturnsExactly
        (runParser mixedWorld "prodoctorov" "https://prodoctorov.ru/vrach/1/" (some [staleReview]))
        (Find selCard mixedPage).length
        (fun i => ((Find selCard mixedPage)[i]?).map cardReview) ∧
      ReturnsExactly
        (runParser mixedWorld "sberzdorovie" "https://prodoctorov.ru/vrach/1/"
          (some [staleReview]))
        twoItems.length (fun i => (twoItems[i]?).bind (itemReview mixedWorld)) ∧
      runParser mixedWorld "prodoctorov" "https://prodoctorov.ru/vrach/1/" (some [staleReview]) =
        .ok
          (some [⟨"42", "Anna K.", "1 May 2024", "Great doctor", "prodoctorov"⟩,
            ⟨"43", "Boris", "2 May 2024", "Fine", "prodoctorov"⟩])
          (some [⟨"42", "Anna K.", "1 May 2024", "Great doctor", "prodoctorov"⟩,
            ⟨"43", "Boris", "2 May 2024", "Fine", "prodoctorov"⟩]) ∧
      runParser mixedWorld "sberzdorovie" "https://prodoctorov.ru/vrach/1/" (some [staleReview]) =
        .ok
          (some [⟨"123", "Anna", "2024-05-01", "Great doctor", "sberzdorovie"⟩,
            ⟨"124", "Boris", "2024-05-02", "Fine", "sberzdorovie"⟩])
          (some [⟨"123", "Anna", "2024-05-01", "Great doctor", "sberzdorovie"⟩,
            ⟨"124", "Boris", "2024-05-02", "Fine", "sberzdorovie"⟩]) :=
  ⟨(pipeline_alone_returns_reviews_in_document_order mixedWorld "https://prodoctorov.ru/vrach/1/"
      (some [staleReview]) { IsSuccessState := true, Body := { document := some mixedPage } }
      mixedPage rfl rfl rfl rfl).1,
    (pipeline_alone_returns_reviews_in_document_order mixedWorld "https://prodoctorov.ru/vrach/1/"
      (some [staleReview]) { IsSuccessState := true, Body := { document := some mixedPage } }
      mixedPage rfl rfl rfl rfl).2 twoItems rfl
      (by
        intro x hx
        simp only [twoItems, List.mem_cons, List.mem_singleton, List.not_mem_nil, or_false] at hx
        rcases hx with rfl | rfl
        · exact ⟨_, _, _, _, _, rfl, rfl, rfl, rfl, rfl⟩
        · exact ⟨_, _, _, _, _, rfl, rfl, rfl, rfl, rfl⟩),
    by decide, by decide⟩

/-- C1 (the code departs from it): a pipeline call for a successfully fetched page with one
review card returns three reviews when the extraction of another request, for a page with two
cards, runs while the call waits for its GET: `runParser` has reset the package variable, the
other extraction appends its two reviews to it, and `parseProdoctorov` appends the review of
the one card after them and returns the whole list. -/
theorem C1_overlapping_request_adds_reviews :
    overlapWorld.Get "https://prodoctorov.ru/vrach/2/" =
        some { IsSuccessState := true, Body := { document := some oneCardPage } } ∧
      (Find selCard oneCardPage).length = 1 ∧
      (Find selCard oneCardPage).map cardReview =
        [⟨"43", "Boris", "2 May 2024", "Fine", "prodoctorov"⟩] ∧
      overlapWorld.meanwhile none =
        some [⟨"42", "Anna K.", "1 May 2024", "Great doctor", "prodoctorov"⟩,
          ⟨"43", "Boris", "2 May 2024", "Fine", "prodoctorov"⟩] ∧
      runParser overlapWorld "prodoctorov" "https://prodoctorov.ru/vrach/2/" none =
        .ok
          (some [⟨"42", "Anna K.", "1 May 2024", "Great doctor", "prodoctorov"⟩,
            ⟨"43", "Boris", "2 May 2024", "Fine", "prodoctorov"⟩,
            ⟨"43", "Boris", "2 May 2024", "Fine", "prodoctorov"⟩])
          (some [⟨"42", "Anna K.", "1 May 2024", "Great doctor", "prodoctorov"⟩,
            ⟨"43", "Boris", "2 May 2024", "Fine", "prodoctorov"⟩,
            ⟨"43", "Boris", "2 May 2024", "Fine", "prodoctorov"⟩]) ∧
      ¬ ReturnsExactly (runParser overlapWorld "prodoctorov" "https://prodoctorov.ru/vrach/2/" none)
          (Find selCard oneCardPage).length
          (fun i => ((Find selCard oneCardPage)[i]?).map cardReview) := by
  have hrun : runParser overlapWorld "prodoctorov" "https://prodoctorov.ru/vrach/2/" none =
      .ok
        (some [⟨"42", "Anna K.", "1 May 2024", "Great doctor", "prodoctorov"⟩,
          ⟨"43", "Boris", "2 May 2024", "Fine", "prodoctorov"⟩,
          ⟨"43", "Boris", "2 May 2024", "Fine", "prodoctorov"⟩])
        (some [⟨"42", "Anna K.", "1 May 2024", "Great doctor", "prodoctorov"⟩,
          ⟨"43", "Boris", "2 May 2024", "Fine", "prodoctorov"⟩,
          ⟨"43", "Boris", "2 May 2024", "Fine", "prodoctorov"⟩]) := by
    decide
  have hlen : (Find selCard oneCardPage).length = 1 := rfl
  refine ⟨rfl, hlen, by decide, by decide, hrun, ?_⟩
  rintro ⟨out, hout, hl, _⟩
  rw [hrun] at hout
  cases hout
  rw [hlen] at hl
  simp [Slice.toList] at hl

/-- C4 (the code departs from it): a successfully fetched `prodoctorov` page without any review
card is answered with the failure outcome: `parseProdoctorov` returns the `nil` slice that
`runParser` left in the package variable, and `PostHandler` takes `nil` for a failed
retrieval. -/
theorem C4_zero_cards_reported_as_failure :
    Find selCard noCardPage = [] ∧
      runParser (serving noCardPage none) "prodoctorov" "https://prodoctorov.ru/vrach/1/" none =
        .ok none none ∧
      PostHandler (serving noCardPage none)
          ⟨"POST", "prodoctorov", "https://prodoctorov.ru/vrach/1/"⟩ none =
        .ok (.encoded (makeErrorResponse 400 "Ошибка получения данных")) none ∧
      (makeErrorResponse 400 "Ошибка получения данных").Error = 1 :=
  ⟨rfl, by decide, by decide, rfl⟩

theorem findReviews_unknown (W : World) (result : Reader) (platform : String) (g : Slice)
    (h1 : platform ≠ "prodoctorov") (h2 : platform ≠ "sberzdorovie") :
    findReviews W result platform g = .ok g g := by
  simp [findReviews, h1, h2]

/-- C5 (the code departs from it): for a platform key that is not supported, `findReviews` runs
no extractor but returns the package variable; when it holds a review, that review is
returned; so is what the extraction of another request left there after the reset of this
call. -/
theorem C5_unknown_platform_returns_package_variable :
    findReviews (serving twoCardPage none) { document := some twoCardPage } "docdoc"
        (some [staleReview]) =
      .ok (some [staleReview]) (some [staleReview]) ∧
    findReviews (serving twoCardPage none) { document := some twoCardPage } "docdoc" none =
      .ok none none ∧
    (match findReviews mixedWorld { document := some mixedPage } "sberzdorovie" none with
      | .ok _ left =>
        findReviews (serving twoCardPage none) { document := some twoCardPage } "docdoc" left
      | other => other) =
      .ok
        (some [⟨"123", "Anna", "2024-05-01", "Great doctor", "sberzdorovie"⟩,
          ⟨"124", "Boris", "2024-05-02", "Fine", "sberzdorovie"⟩])
        (some [⟨"123", "Anna", "2024-05-01", "Great doctor", "sberzdorovie"⟩,
          ⟨"124", "Boris", "2024-05-02", "Fine", "sberzdorovie"⟩]) :=
  ⟨by decide, by decide, by decide⟩

/-- C10 (the code departs from it): the sequence returned by `findReviews` starts with what the
package variable held: with a review left by an earlier call the result differs from the
result on the `nil` list, and a call that starts from what the extraction of another page
left returns the reviews of that page too. -/
theorem C10_result_depends_on_prior_content :
    findReviews (serving oneCardPage none) { document := some oneCardPage } "prodoctorov" none =
      .ok (some [⟨"43", "Boris", "2 May 2024", "Fine", "prodoctorov"⟩])
        (some [⟨"43", "Boris", "2 May 2024", "Fine", "prodoctorov"⟩]) ∧
    findReviews (serving oneCardPage none) { document := some oneCardPage } "prodoctorov"
        (some [staleReview]) =
      .ok (some [staleReview, ⟨"43", "Boris", "2 May 2024", "Fine", "prodoctorov"⟩])
        (some [staleReview, ⟨"43", "Boris", "2 May 2024", "Fine", "prodoctorov"⟩]) ∧
    parseSberzdorovie mixedWorld { document := some mixedPage } (some [staleReview]) =
      .ok
        (some [staleReview, ⟨"123", "Anna", "2024-05-01", "Great doctor", "sberzdorovie"⟩,
          ⟨"124", "Boris", "2024-05-02", "Fine", "sberzdorovie"⟩])
        (some [staleReview, ⟨"123", "Anna", "2024-05-01", "Great doctor", "sberzdorovie"⟩,
          ⟨"124", "Boris", "2024-05-02", "Fine", "sberzdorovie"⟩]) ∧
    (match findReviews mixedWorld { document := some mixedPage } "sberzdorovie" none with
      | .ok _ left =>
        findReviews (serving oneCardPage none) { document := some oneCardPage } "prodoctorov" left
      | other => other) =
      .ok
        (some [⟨"123", "Anna", "2024-05-01", "Great doctor", "sberzdorovie"⟩,
          ⟨"124", "Boris", "2024-05-02", "Fine", "sberzdorovie"⟩,
          ⟨"43", "Boris", "2 May 2024", "Fine", "prodoctorov"⟩])
        (some [⟨"123", "Anna", "2024-05-01", "Great doctor", "sberzdorovie"⟩,
          ⟨"124", "Boris", "2024-05-02", "Fine", "sberzdorovie"⟩,
          ⟨"43", "Boris", "2 May 2024", "Fine", "prodoctorov"⟩]) :=
  ⟨by decide, by decide, by decide, by decide⟩

/-! ## The embedded payload -/

/-- C7: when the chain of keys props, pageProps, preloadedState, doctorPage, doctor,
reviewsForSeo does not lead to an array in the decoded payload (a key is missing, a value on the
way is not an object, or `reviewsForSeo` is not an array), `parseSberzdorovie` fails for the
whole call: it panics, returns no sequence, and has appended nothing. -/
theorem C7_broken_chain_fails (W : World) (result : Reader) (doc : Node) (g : Slice)
    (hdoc : NewDocumentFromReader result = some doc)
    (hbroken : ∀ items, ¬ ChainReaches (W.Unmarshal (Text (Find selNextData doc))) items) :
    parseSberzdorovie W result g = .panicked g := by
  have hnone : reviewsFromSber (W.Unmarshal (Text (Find selNextData doc))) = none := by
    cases h : reviewsFromSber (W.Unmarshal (Text (Find selNextData doc))) with
    | none => rfl
    | some items => exact absurd ((reviewsFromSber_eq_some_iff _ _).mp h) (hbroken items)
  simp [parseSberzdorovie, hdoc, hnone]

/-- C7 on a payload that lacks only the key `reviewsForSeo`: the call panics. -/
theorem C7_missing_reviewsForSeo_witness :
    (∀ items, ¬ ChainReaches (noArrayWorld.Unmarshal (Text (Find selNextData sberPage))) items) ∧
      parseSberzdorovie noArrayWorld { document := some sberPage } (some [staleReview]) =
        .panicked (some [staleReview]) :=
  have h : ∀ items,
      ¬ ChainReaches (noArrayWorld.Unmarshal (Text (Find selNextData sberPage))) items := by
    intro items hreach
    have h2 : (none : Option Value) = some (.slice items) := hreach
    cases h2
  ⟨h, C7_broken_chain_fails noArrayWorld { document := some sberPage } sberPage
    (some [staleReview]) rfl h⟩

theorem toString_int_ofNat (a : Nat) : toString (Int.ofNat a) = toString a := rfl

theorem toString_int_negSucc (b : Nat) :
    toString (Int.negSucc b) = "-" ++ toString (b + 1) := rfl

theorem formatF0_of_isInt (x : Float64) (n : Int) (h : x.IsInt n) : formatF0 x = toString n := by
  obtain ⟨neg, mant, exp⟩ := x
  obtain ⟨hneg, hval⟩ := h
  simp only at hneg hval
  have hround : roundHalfEven mant exp = n.natAbs := by
    cases exp with
    | ofNat k => simpa [roundHalfEven] using hval
    | negSucc k =>
      simp only at hval
      have hd : 0 < 2 ^ (k + 1) := Nat.two_pow_pos (k + 1)
      simp only [roundHalfEven, hval, Nat.mul_mod_left, Nat.mul_div_cancel _ hd]
      simp only [Nat.mul_zero, Nat.not_lt_zero, decide_False, Bool.false_or, Bool.and_eq_true,
        beq_iff_eq]
      rw [if_neg]
      intro hcontra
      omega
  cases n with
  | ofNat a =>
    have hn : neg = false := by simpa using hneg
    simp only [formatF0, hround, hn, Int.natAbs_ofNat, Bool.false_eq_true, if_false,
      toString_int_ofNat]
    exact String.empty_append _
  | negSucc b =>
    have hn : neg = true := by
      rw [hneg]
      exact decide_eq_true (Int.negSucc_lt_zero b)
    simp only [formatF0, hround, hn, if_true, Int.natAbs_negSucc, toString_int_negSucc]

/-- The negative zero prints with its sign, whatever its exponent. -/
theorem formatF0_negative_zero (e : Int) : formatF0 { neg := true, mant := 0, exp := e } = "-0" := by
  cases e with
  | ofNat k => simp [formatF0, roundHalfEven]; rfl
  | negSucc k => simp [formatF0, roundHalfEven]; rfl

theorem roundHalfEven_of_magnitude (mant : Nat) (exp : Int) (a : Nat)
    (h : match exp with
      | .ofNat k => mant * 2 ^ k = a
      | .negSucc k => mant = a * 2 ^ (k + 1)) :
    roundHalfEven mant exp = a := by
  cases exp with
  | ofNat k => simpa [roundHalfEven] using h
  | negSucc k =>
    simp only at h
    have hd : 0 < 2 ^ (k + 1) := Nat.two_pow_pos (k + 1)
    simp only [roundHalfEven, h, Nat.mul_mod_left, Nat.mul_div_cancel _ hd]
    simp only [Nat.mul_zero, Nat.not_lt_zero, decide_False, Bool.false_or, Bool.and_eq_true,
      beq_iff_eq]
    rw [if_neg]
    intro hcontra
    omega

theorem formatF0_of_hasValue (x : Float64) (n : Int) (h : x.HasValue n) :
    formatF0 x = if x.neg = true ∧ n = 0 then "-0" else toString n := by
  obtain ⟨hneg, hpos, hval⟩ := h
  by_cases hz : n = 0
  · subst hz
    have hround : roundHalfEven x.mant x.exp = 0 := roundHalfEven_of_magnitude _ _ 0 hval
    cases hn : x.neg with
    | true => simp only [formatF0, hround, hn, and_self, if_true]; rfl
    | false => simp only [formatF0, hround, hn, Bool.false_eq_true, false_and, if_false]; rfl
  · have hint : x.IsInt n := by
      refine ⟨?_, hval⟩
      rcases lt_or_gt_of_ne hz with hlt | hgt
      · rw [hneg hlt]
        exact (decide_eq_true hlt).symm
      · rw [hpos hgt]
        exact (decide_eq_false (not_lt.mpr (le_of_lt hgt))).symm
    rw [formatF0_of_isInt x n hint, if_neg (fun hc => hz hc.2)]

/-- C8 does not hold for the negative zero: the JSON id `-0` is an integer-valued number, 0,
exactly representable, and the review built from the element has the `ID` `"-0"`, which is not
the decimal representation `"0"` of 0. -/
theorem C8_counterexample_negative_zero :
    negativeZero.HasValue 0 ∧ |(0 : Int)| < 2 ^ 53 ∧
      itemReview mixedWorld negativeZeroItem =
        some { ID := "-0", Name := "Anna", Date := "2024-05-01", Message := "Good",
               Source := "sberzdorovie" } ∧
      toString (0 : Int) = "0" ∧
      itemReview mixedWorld negativeZeroItem ≠
        some { ID := toString (0 : Int), Name := "Anna", Date := "2024-05-01", Message := "Good",
               Source := "sberzdorovie" } :=
  ⟨⟨fun h => absurd h (by decide), fun h => absurd h (by decide), rfl⟩, by decide, by decide,
    by decide, by decide⟩

/-- C8 as amended: in `parseSberzdorovie`, an element whose `id` is an integer-valued number
`n` (with `|n| < 2 ^ 53`) yields a review whose `ID` is the decimal representation of `n`, an
optional minus sign and digits without point, fraction or exponent; the one exception is the
negative zero, whose `ID` is `"-0"`. -/
theorem C8_integer_id_is_plain_decimal (W : World) (m : JMap) (x : Float64) (n : Int)
    (name date text : String) (_hn : |n| < 2 ^ 53) (hx : x.HasValue n)
    (hid : m.lookup "id" = some (.float64 x))
    (hname : m.lookup "name" = some (.string name))
    (hdate : m.lookup "date" = some (.string date))
    (htext : m.lookup "text" = some (.string text)) :
    itemReview W (.map m) =
      some { ID := if x.neg = true ∧ n = 0 then "-0" else toString n, Name := name,
             Date := date, Message := text, Source := "sberzdorovie" } := by
  simp [itemReview, Value.assertMap, JMap.index, hid, hname, hdate, htext, Value.assertString,
    Sprintf0f, formatF0_of_hasValue x n hx]

/-- C8 as amended, on the id 123 (as the float `123 * 2 ^ 0` and as the float
`(123 * 2 ^ 46) * 2 ^ (-46)`), where the `ID` is `"123"`, and on the id -7, where it is
`"-7"`. -/
theorem C8_id_123_witness :
    (|(123 : Int)| < 2 ^ 53 ∧ (Float64.ofInt 123).HasValue 123 ∧
      (Float64.mk false (123 * 2 ^ 46) (-46)).HasValue 123) ∧
    itemReview mixedWorld (sberItem 123 "Anna" "2024-05-01" "Great doctor") =
      some { ID := "123", Name := "Anna", Date := "2024-05-01",
             Message := "Great doctor", Source := "sberzdorovie" } ∧
    itemReview mixedWorld (sberItem 123 "Anna" "2024-05-01" "Great doctor") =
      some { ID := if (Float64.ofInt 123).neg = true ∧ (123 : Int) = 0 then "-0"
                   else toString (123 : Int),
             Name := "Anna", Date := "2024-05-01", Message := "Great doctor",
             Source := "sberzdorovie" } ∧
    formatF0 (Float64.mk false (123 * 2 ^ 46) (-46)) = "123" ∧
    itemReview mixedWorld (sberItem (-7) "Anna" "2024-05-01" "Great doctor") =
      some { ID := "-7", Name := "Anna", Date := "2024-05-01",
             Message := "Great doctor", Source := "sberzdorovie" } :=
  ⟨⟨by decide, ⟨fun h => absurd h (by decide), fun _ => rfl, rfl⟩,
      ⟨fun h => absurd h (by decide), fun _ => rfl, rfl⟩⟩,
    by decide,
    C8_integer_id_is_plain_decimal mixedWorld _ (Float64.ofInt 123) 123 "Anna" "2024-05-01"
      "Great doctor" (by decide) ⟨fun h => absurd h (by decide), fun _ => rfl, rfl⟩ rfl rfl rfl
      rfl,
    by decide, by decide⟩

/-- C9 (the code departs from it): an element of `reviewsForSeo` without `id`, whose `name`,
`date` and `text` are strings, does not fail: `fmt.Sprintf` formats the missing operand, the
review gets the diagnostic of `fmt` as its `ID`, and the call returns it. The fields `name`,
`date` and `text` beside it are read with a type assertion, which fails on a mismatch. -/
theorem C9_missing_id_yields_review :
    parseSberzdorovie noIdWorld { document := some sberPage } none =
      .ok (some [⟨"%!f(<nil>)", "Anna", "2024-05-01", "Good", "sberzdorovie"⟩])
        (some [⟨"%!f(<nil>)", "Anna", "2024-05-01", "Good", "sberzdorovie"⟩]) := by
  decide

/-- An element of `reviewsForSeo` that is not an object, or whose `name`, `date` or `text` is
missing or not a string, yields no review: the type assertion panics and the call ends
without returning. -/
theorem mistyped_text_field_fails (W : World) (result : Reader) (doc : Node) (g : Slice)
    (items : List Value) (item : Value)
    (hdoc : NewDocumentFromReader result = some doc)
    (hreach : ChainReaches (W.Unmarshal (Text (Find selNextData doc))) items)
    (hmem : item ∈ items) (hbad : ¬ TextFieldsOk item) :
    itemReview W item = none ∧ ∃ g2, parseSberzdorovie W result g = .panicked g2 := by
  have hnone : itemReview W item = none := by
    cases h : itemReview W item with
    | none => rfl
    | some r => exact absurd (textFieldsOk_of_itemReview W item r h) hbad
  refine ⟨hnone, ?_⟩
  rw [parseSberzdorovie_reached W result doc g items hdoc hreach]
  exact sberLoop_panics W items g ⟨item, hmem, hnone⟩

/-- An array whose second element has a number for `name`: no review comes from that element
and the call panics after the first. -/
theorem mistyped_name_example :
    itemReview badNameWorld badNameItem = none ∧
    (∃ g2, parseSberzdorovie badNameWorld { document := some sberPage } none = .panicked g2) ∧
    parseSberzdorovie badNameWorld { document := some sberPage } none =
      .panicked (some [⟨"123", "Anna", "2024-05-01", "Great doctor", "sberzdorovie"⟩]) :=
  have hbad : ¬ TextFieldsOk badNameItem := by
    rintro ⟨m, n, d, t, hm, hn, _, _⟩
    cases hm
    have h2 : some (Value.float64 (Float64.ofInt 1)) = some (Value.string n) := hn
    cases h2
  have key := mistyped_text_field_fails badNameWorld { document := some sberPage } sberPage
    none [sberItem 123 "Anna" "2024-05-01" "Great doctor", badNameItem] badNameItem rfl rfl
    (by simp) hbad
  ⟨key.1, key.2, by decide⟩

end DoctorsReviews
